import Mathlib

/-!
# Medical-Report ETL System — verification of the orchestration core

Shallow embedding of the repository's pipeline core:

* `src/features/anonymization/pii_patterns.py`, `redactor.py`, `validator.py`
* `src/features/metadata/extractor.py` and `extractors/{age,bmi,findings,gestational_age}.py`
* `src/features/anonymization/uuid_service.py` and `src/core/utils/file_utils.py`
* `src/pipeline/context.py`, `stages/*.py`, `orchestrator.py`

Texts are embedded as `List Char`.  The Python regexes used by the code are
all of a restricted shape (literal heads followed by character-class
repetitions whose classes are disjoint from what must follow), so each regex
is embedded as a deterministic maximal-munch matcher; the regex it mirrors is
quoted in the doc comment of each matcher.
-/

namespace ETL

/-! ## Character classes (Python `re` ASCII semantics) -/

/-- Python `\s` on the ASCII range: space, tab, newline, carriage return,
vertical tab, form feed.  (`str.strip`/`str.isspace` use the same set.) -/
def isSpacePy (c : Char) : Bool :=
  c = ' ' || c = '\t' || c = '\n' || c = '\r' || c = '\x0b' || c = '\x0c'

/-- `[A-Za-z]` -/
def isAlphaAscii (c : Char) : Bool :=
  ('A' ≤ c && c ≤ 'Z') || ('a' ≤ c && c ≤ 'z')

/-- `[0-9]` / `\d` (ASCII) -/
def isDigitAscii (c : Char) : Bool :=
  '0' ≤ c && c ≤ '9'

/-- `[A-Za-z0-9]` -/
def isAlnumAscii (c : Char) : Bool :=
  isAlphaAscii c || isDigitAscii c

/-- ASCII lower-casing, the effect of `re.IGNORECASE` on the texts involved. -/
def lowerAscii (c : Char) : Char :=
  if 'A' ≤ c && c ≤ 'Z' then Char.ofNat (c.toNat + 32) else c

/-! ## Generic text scanning helpers -/

/-- Maximal munch of a character class: the longest prefix whose characters
satisfy `p`, together with the rest.  Embeds a greedy `[class]*` / `[class]+`
whose class is disjoint from the character that has to follow (so that the
greedy regex engine never backtracks into it). -/
def munch (p : Char → Bool) : List Char → List Char × List Char
  | [] => ([], [])
  | c :: cs =>
    if p c then
      let (a, b) := munch p cs
      (c :: a, b)
    else ([], c :: cs)

/-- Consume a case-sensitive literal; `some rest` on success. -/
def lit : List Char → List Char → Option (List Char)
  | [], s => some s
  | _ :: _, [] => none
  | l :: ls, c :: cs => if c = l then lit ls cs else none

/-- Consume a literal case-insensitively (`re.IGNORECASE`). -/
def ciLit : List Char → List Char → Option (List Char)
  | [], s => some s
  | _ :: _, [] => none
  | l :: ls, c :: cs => if lowerAscii c = lowerAscii l then ciLit ls cs else none

/-- Greedy optional single character from a class (`[class]?`). -/
def optChar (p : Char → Bool) : List Char → List Char
  | [] => []
  | c :: cs => if p c then cs else c :: cs

/-- `l` occurs as a substring of `s`. -/
def containsSub (l s : List Char) : Bool :=
  match s with
  | [] => (lit l []).isSome
  | _ :: cs => (lit l s).isSome || containsSub l cs

/-! ## PII patterns — `src/features/anonymization/pii_patterns.py`

Each Python pattern is a regex string; here the regex is embedded as a
match-at-position function returning the rest of the input after the match
(`none` when there is no match starting at this position).  All these
patterns are applied case-sensitively (the redactor passes no flags). -/

/-- `Patient Name[:\s]+[A-Za-z][A-Za-z \t]+` at the current position.
`[:\s]` is disjoint from `[A-Za-z]`, and `[A-Za-z \t]+` is the final atom,
so greedy maximal munch is exact. -/
def matchPatientNameAt (s : List Char) : Option (List Char) :=
  (lit "Patient Name".data s).bind fun s1 =>
  let (w, s2) := munch (fun c => c = ':' || isSpacePy c) s1
  if w.isEmpty then none else
  match s2 with
  | c :: s3 =>
    if isAlphaAscii c then
      let (w2, s4) := munch (fun c => isAlphaAscii c || c = ' ' || c = '\t') s3
      if w2.isEmpty then none else some s4
    else none
  | [] => none

/-- `Patient ID[:\s]+[A-Za-z0-9][A-Za-z0-9_-]*` at the current position. -/
def matchPatientIdAt (s : List Char) : Option (List Char) :=
  (lit "Patient ID".data s).bind fun s1 =>
  let (w, s2) := munch (fun c => c = ':' || isSpacePy c) s1
  if w.isEmpty then none else
  match s2 with
  | c :: s3 =>
    if isAlnumAscii c then
      some (munch (fun c => isAlnumAscii c || c = '_' || c = '-') s3).2
    else none
  | [] => none

/-- `Hospital Name[:\s]+[A-Za-z][A-Za-z \t]+` at the current position. -/
def matchHospitalNameAt (s : List Char) : Option (List Char) :=
  (lit "Hospital Name".data s).bind fun s1 =>
  let (w, s2) := munch (fun c => c = ':' || isSpacePy c) s1
  if w.isEmpty then none else
  match s2 with
  | c :: s3 =>
    if isAlphaAscii c then
      let (w2, s4) := munch (fun c => isAlphaAscii c || c = ' ' || c = '\t') s3
      if w2.isEmpty then none else some s4
    else none
  | [] => none

/-- `Clinician[:\s]+[A-Za-z][A-Za-z \t]+` at the current position. -/
def matchClinicianAt (s : List Char) : Option (List Char) :=
  (lit "Clinician".data s).bind fun s1 =>
  let (w, s2) := munch (fun c => c = ':' || isSpacePy c) s1
  if w.isEmpty then none else
  match s2 with
  | c :: s3 =>
    if isAlphaAscii c then
      let (w2, s4) := munch (fun c => isAlphaAscii c || c = ' ' || c = '\t') s3
      if w2.isEmpty then none else some s4
    else none
  | [] => none

/-- Immutable pattern record (`PIIPattern` dataclass). The regex field is
embedded as its match-at-position function. -/
structure PIIPattern where
  name : String
  matchAt : List Char → Option (List Char)
  replacement : List Char
  priority : Nat

/-- `PIIPatternRegistry`: mapping name → pattern; `register` overwrites in
place, keyed by name (insertion order retained, as a Python dict does). -/
def registerPat (pats : List PIIPattern) (p : PIIPattern) : List PIIPattern :=
  if pats.any (fun q => q.name = p.name) then
    pats.map (fun q => if q.name = p.name then p else q)
  else pats ++ [p]

/-- Stable insertion into a priority-sorted list (insert after equals),
so that `foldl` over it is Python's stable `sorted(..., key=priority)`. -/
def insertByPriority (p : PIIPattern) : List PIIPattern → List PIIPattern
  | [] => [p]
  | q :: qs => if p.priority < q.priority then p :: q :: qs else q :: insertByPriority p qs

/-- `PIIPatternRegistry.get_all`: patterns sorted by ascending priority,
ties kept in insertion order (Python's `sorted` is stable). -/
def getAll (pats : List PIIPattern) : List PIIPattern :=
  pats.foldl (fun acc p => insertByPriority p acc) []

/-- `build_default_registry()`: the four default patterns. -/
def build_default_registry : List PIIPattern :=
  registerPat (registerPat (registerPat (registerPat []
    ⟨"patient_name", matchPatientNameAt, "Patient Name: [ANONYMIZED]".data, 10⟩)
    ⟨"patient_id", matchPatientIdAt, "Patient ID: [ANONYMIZED]".data, 20⟩)
    ⟨"hospital_name", matchHospitalNameAt, "Hospital Name: [ANONYMIZED]".data, 30⟩)
    ⟨"clinician", matchClinicianAt, "Clinician: [ANONYMIZED]".data, 40⟩

/-- The sorted view the redactor and validator are built over
(`build_default_registry().get_all()`). -/
def defaultPatterns : List PIIPattern := getAll build_default_registry

/-! ## Redactor and validator — `redactor.py`, `validator.py` -/

/-- `re.sub` for a match-at-position function: scan left to right, replace
every (non-overlapping) match, resume after the replaced text.  All the
registry's patterns consume at least one character when they match, so fuel
`s.length + 1` is enough. -/
def subAllFuel (m : List Char → Option (List Char)) (repl : List Char) :
    Nat → List Char → List Char
  | 0, s => s
  | _ + 1, [] =>
    match m [] with
    | some rest => repl ++ rest
    | none => []
  | fuel + 1, c :: cs =>
    match m (c :: cs) with
    | some rest => repl ++ subAllFuel m repl fuel rest
    | none => c :: subAllFuel m repl fuel cs

/-- `re.sub(pattern.regex, pattern.replacement, text)`. -/
def subAll (m : List Char → Option (List Char)) (repl : List Char)
    (s : List Char) : List Char :=
  subAllFuel m repl (s.length + 1) s

/-- `PIIRedactor.redact`: apply each pattern's substitution in sequence
(later patterns see the output of earlier ones). -/
def redact (pats : List PIIPattern) (text : List Char) : List Char :=
  pats.foldl (fun t p => subAll p.matchAt p.replacement t) text

/-- `re.search`: does the pattern match at some position? -/
def searchSome (m : List Char → Option (List Char)) : List Char → Bool
  | [] => (m []).isSome
  | c :: cs => (m (c :: cs)).isSome || searchSome m cs

/-- `RedactionValidator.validate`: true iff no registered pattern still
matches anywhere in the text. -/
def validate (pats : List PIIPattern) (text : List Char) : Bool :=
  pats.all (fun p => !searchSome p.matchAt text)

/-! ## Field extractors — `src/features/metadata/extractors/` -/

/-- Values a field extractor can produce (Python `int`, `float`, `str`,
`list[str]`).  Python floats of the decimal literals involved are modelled
as rationals. -/
inductive MetaValue where
  | int : Int → MetaValue
  | rat : Rat → MetaValue
  | str : List Char → MetaValue
  | strList : List (List Char) → MetaValue
deriving DecidableEq, Repr

/-- Python `int(...)` on a digit string. -/
def digitsToNat (ds : List Char) : Nat :=
  ds.foldl (fun n c => 10 * n + (c.toNat - '0'.toNat)) 0

/-- Python `str.strip()`: remove leading and trailing whitespace. -/
def stripPy (s : List Char) : List Char :=
  ((s.dropWhile isSpacePy).reverse.dropWhile isSpacePy).reverse

/-- Python `str.split("\n")`. -/
def splitNL : List Char → List (List Char)
  | [] => [[]]
  | c :: cs =>
    if c = '\n' then [] :: splitNL cs
    else
      match splitNL cs with
      | [] => [[c]]
      | l :: ls => (c :: l) :: ls

/-- `re.search` driver: try a match at every position, leftmost first. -/
def searchFirst {α : Type} (m : List Char → Option α) : List Char → Option α
  | [] => m []
  | c :: cs => (m (c :: cs)).orElse (fun _ => searchFirst m cs)

/-- `BaseExtractor`: field name, `extract`, `validate`. -/
structure BaseExtractor where
  field_name : String
  extract : List Char → Option MetaValue
  validate : MetaValue → Bool

/-- `Age[:\-]?\s*(\d+)` (IGNORECASE) at the current position; returns the
captured integer.  The classes `[:\-]`, `\s`, `\d` are pairwise disjoint
from their successors, so greedy maximal munch is exact. -/
def matchAgeAt (s : List Char) : Option Nat :=
  (ciLit "age".data s).bind fun s1 =>
  let s2 := optChar (fun c => c = ':' || c = '-') s1
  let s3 := (munch isSpacePy s2).2
  let (ds, _) := munch isDigitAscii s3
  if ds.isEmpty then none else some (digitsToNat ds)

/-- `AgeExtractor`: extract `int(match.group(1))`, valid iff an `int` in
`0 ≤ age ≤ 120`. -/
def AgeExtractor : BaseExtractor where
  field_name := "age"
  extract text := (searchFirst matchAgeAt text).map (fun n => .int (Int.ofNat n))
  validate v := match v with
    | .int n => decide (0 ≤ n ∧ n ≤ 120)
    | _ => false

/-- Python `float(...)` of a captured `[0-9]+\.?[0-9]*` string, as an exact
rational. -/
def decimalToRat (intPart fracPart : List Char) : Rat :=
  (digitsToNat intPart : Rat) + (digitsToNat fracPart : Rat) / ((10 : Rat) ^ fracPart.length)

/-- `BMI[:\-]?\s*([0-9]+\.?[0-9]*)` (IGNORECASE) at the current position. -/
def matchBMIAt (s : List Char) : Option Rat :=
  (ciLit "bmi".data s).bind fun s1 =>
  let s2 := optChar (fun c => c = ':' || c = '-') s1
  let s3 := (munch isSpacePy s2).2
  let (ds, s4) := munch isDigitAscii s3
  if ds.isEmpty then none else
  let s5 := optChar (fun c => c = '.') s4
  let (fs, _) := munch isDigitAscii s5
  some (decimalToRat ds fs)

/-- `BMIExtractor`: valid iff a float in `0.0 ≤ bmi ≤ 100.0`. -/
def BMIExtractor : BaseExtractor where
  field_name := "BMI"
  extract text := (searchFirst matchBMIAt text).map .rat
  validate v := match v with
    | .rat q => decide (0 ≤ q ∧ q ≤ 100)
    | _ => false

/-- Tail of `GA[:\-]?\s*(\d+\s*weeks?\s*\d*\s*day[s]?)` after the capture
starts: consume `\d+\s*weeks?\s*\d*\s*day[s]?` and return the rest. -/
def gaGroupRest (s : List Char) : Option (List Char) :=
  let (ds, s1) := munch isDigitAscii s
  if ds.isEmpty then none else
  let s2 := (munch isSpacePy s1).2
  (ciLit "week".data s2).bind fun s3 =>
  let s4 := optChar (fun c => lowerAscii c = 's') s3
  let s5 := (munch isSpacePy s4).2
  let s6 := (munch isDigitAscii s5).2
  let s7 := (munch isSpacePy s6).2
  (ciLit "day".data s7).bind fun s8 =>
  some (optChar (fun c => lowerAscii c = 's') s8)

/-- `GA[:\-]?\s*(\d+\s*weeks?\s*\d*\s*day[s]?)` (IGNORECASE) at the current
position; returns the captured group (the original characters). -/
def matchGAAt (s : List Char) : Option (List Char) :=
  (ciLit "ga".data s).bind fun s1 =>
  let s2 := optChar (fun c => c = ':' || c = '-') s1
  let s3 := (munch isSpacePy s2).2
  (gaGroupRest s3).map (fun rest => s3.take (s3.length - rest.length))

/-- `GestationalAgeExtractor`: extract `match.group(1).strip()`, valid iff a
non-empty string. -/
def GestationalAgeExtractor : BaseExtractor where
  field_name := "gestational_age"
  extract text := (searchFirst matchGAAt text).map (fun g => .str (stripPy g))
  validate v := match v with
    | .str s => decide (0 < s.length)
    | _ => false

/-- The trailing `\s*Conclusion` of the findings regex matches at `s`. -/
def conclAt (s : List Char) : Bool :=
  (ciLit "conclusion".data (munch isSpacePy s).2).isSome

/-- The lazy `(.*?)` of the findings regex: capture the fewest characters
(DOTALL: newlines included) after which `\s*Conclusion` completes. -/
def lazyGroup : List Char → Option (List Char)
  | [] => if conclAt [] then some [] else none
  | c :: cs =>
    if conclAt (c :: cs) then some []
    else (lazyGroup cs).map (fun g => c :: g)

/-- `Examination Findings\s*(.*?)\s*Conclusion` (DOTALL, IGNORECASE) at the
current position; returns the captured group.  The leading `\s*` is greedy;
a smaller munch cannot help, because a whitespace start position reduces to
the same continuation check. -/
def matchFindingsAt (s : List Char) : Option (List Char) :=
  (ciLit "Examination Findings".data s).bind fun s1 =>
  lazyGroup (munch isSpacePy s1).2

/-- `[line.strip() for line in findings_text.strip().split("\n") if line.strip()]` -/
def findingsLines (g : List Char) : List (List Char) :=
  ((splitNL (stripPy g)).map stripPy).filter (fun l => !l.isEmpty)

/-- `FindingsExtractor`: the captured block split into non-empty trimmed
lines; `lines or None` yields `none` when no line survives; valid iff a
list. -/
def FindingsExtractor : BaseExtractor where
  field_name := "findings"
  extract text :=
    (searchFirst matchFindingsAt text).bind fun g =>
      let lines := findingsLines g
      if lines.isEmpty then none else some (.strList lines)
  validate v := match v with
    | .strList _ => true
    | _ => false

/-! ## Metadata aggregator — `src/features/metadata/extractor.py` -/

/-- `MetadataExtractor.extract_all`: run every extractor over the text; skip
a field whose `extract` is absent, include it only if its `validate`
accepts.  The metadata dict is an association list in loop order (the
registered extractors carry pairwise distinct field names). -/
def extract_all : List BaseExtractor → List Char → List (String × MetaValue)
  | [], _ => []
  | e :: es, t =>
    match e.extract t with
    | none => extract_all es t
    | some v =>
      if e.validate v then (e.field_name, v) :: extract_all es t
      else extract_all es t

/-- The extractor list the pipeline is assembled with
(`scripts/benchmark.py::build_pipeline`). -/
def defaultExtractors : List BaseExtractor :=
  [GestationalAgeExtractor, AgeExtractor, BMIExtractor, FindingsExtractor]

/-! ## Identifier mapping service — `src/features/anonymization/uuid_service.py`

The service's observable state is its in-memory dict plus the map file's
content (`none` when the file does not exist).  `atomic_write_json`
(`src/core/utils/file_utils.py`) writes the full map to a temporary file and
atomically replaces the canonical path, so a completed `save` is an atomic
update of the disk component.  Randomly drawn UUID tokens are supplied by
the caller as an oracle argument. -/

/-- Association-list lookup: Python's `key in dict` / `dict[key]` pair. -/
def findVal {β : Type} (id : String) : List (String × β) → Option β
  | [] => none
  | (k, v) :: kvs => if k = id then some v else findVal id kvs

structure MapState where
  mapping : List (String × String)
  disk : Option (List (String × String))
deriving Repr, DecidableEq

/-- `UUIDMappingService._load`: if the map file exists, replace the
in-memory dict with its content (a malformed file raises, which we do not
model: the claims only concern well-formed maps). -/
def loadMap (st : MapState) : MapState :=
  match st.disk with
  | some d => { st with mapping := d }
  | none => st

/-- `UUIDMappingService.__init__`: start from an empty dict, then `_load`. -/
def initService (disk : Option (List (String × String))) : MapState :=
  loadMap { mapping := [], disk := disk }

/-- `UUIDMappingService.save` via `atomic_write_json`: the file now holds
exactly the in-memory map. -/
def saveMap (st : MapState) : MapState :=
  { st with disk := some st.mapping }

/-- `UUIDMappingService._create_uuid`: insert the fresh token (a new dict
key appends in insertion order), persist the full map, return the token. -/
def create_uuid (fresh : String) (st : MapState) (id : String) : String × MapState :=
  (fresh, saveMap { st with mapping := st.mapping ++ [(id, fresh)] })

/-- `UUIDMappingService.get_or_create_uuid`: in-memory hit returns with no
I/O; otherwise reload from disk under the lock, re-check, and only then
create-and-persist. -/
def get_or_create_uuid (fresh : String) (st : MapState) (id : String) :
    String × MapState :=
  match findVal id st.mapping with
  | some p => (p, st)
  | none =>
    let st1 := loadMap st
    match findVal id st1.mapping with
    | some p => (p, st1)
    | none => create_uuid fresh st1 id

/-- Service states reachable by constructing the service over some map file
and serving any sequence of `get_or_create_uuid` calls. -/
inductive ReachableMap : MapState → Prop
  | init (d : Option (List (String × String))) : ReachableMap (initService d)
  | step (fresh id : String) {st : MapState} (h : ReachableMap st) :
      ReachableMap (get_or_create_uuid fresh st id).2

/-- Every in-memory entry is also on disk (pseudonyms are persisted before
being handed out). -/
def ConsistentMap (st : MapState) : Prop :=
  ∀ i p, findVal i st.mapping = some p →
    ∃ d, st.disk = some d ∧ findVal i d = some p

/-! ## Pipeline context — `src/pipeline/context.py` -/

structure PipelineContext where
  pdf_path : String
  extracted_text : Option (List Char) := none
  anonymized_text : Option (List Char) := none
  metadata : List (String × MetaValue) := []
  anonymized_pdf_path : Option String := none
  errors : List String := []
deriving Repr, DecidableEq

/-- `PipelineContext.add_error`: append `"<stage>: <message>"`. -/
def add_error (ctx : PipelineContext) (stage message : String) : PipelineContext :=
  { ctx with errors := ctx.errors ++ [stage ++ ": " ++ message] }

/-- `PipelineContext.has_errors`. -/
def has_errors (ctx : PipelineContext) : Bool :=
  0 < ctx.errors.length

/-! ## External effects

A `World` carries the shared identifier-map state, the PDF files written by
the `PDFGenerator`, and an oracle stream of random UUID tokens (with a
cursor for the next draw). -/

structure World where
  svc : MapState
  pdfs : List (String × List Char)
  freshes : Nat → String
  tick : Nat

/-- A stage in the orchestrator's list: context in, context out, threading
the external world (`BasePipelineStage.execute`). -/
def Stage : Type := PipelineContext → World → PipelineContext × World

/-! ## Stages — `src/pipeline/stages/*.py`

Collaborators that can raise are modelled as `Except`-valued functions; the
`try/except` of each stage becomes the `.error` branch, which appends
`"<stageName>: <message>"` and returns the context. -/

/-- `OCRStage.execute`. -/
def OCRStage.execute (engine : String → Except String (List Char))
    (ctx : PipelineContext) : PipelineContext :=
  match engine ctx.pdf_path with
  | .ok t => { ctx with extracted_text := some t }
  | .error e => add_error ctx "OCR" e

/-- `AnonymizationStage.execute`: precondition `extracted_text` present;
redact (which may raise), store the result, then post-validate. -/
def AnonymizationStage.execute (redactF : List Char → Except String (List Char))
    (validateF : List Char → Bool) (ctx : PipelineContext) : PipelineContext :=
  match ctx.extracted_text with
  | none => add_error ctx "Anonymization" "No extracted text"
  | some t =>
    match redactF t with
    | .error e => add_error ctx "Anonymization" e
    | .ok r =>
      let ctx1 := { ctx with anonymized_text := some r }
      if validateF r then ctx1
      else add_error ctx1 "Anonymization" "Redaction validation failed"

/-- `ExtractionStage.execute`: precondition `anonymized_text` present; the
whole `extract_all` call may raise (`ExtractionException`), replacing no
metadata in that case. -/
def ExtractionStage.execute
    (extractAllF : List Char → Except String (List (String × MetaValue)))
    (ctx : PipelineContext) : PipelineContext :=
  match ctx.anonymized_text with
  | none => add_error ctx "Extraction" "No anonymized text"
  | some t =>
    match extractAllF t with
    | .ok m => { ctx with metadata := m }
    | .error e => add_error ctx "Extraction" e

/-- Python dict assignment `metadata[k] = v`: overwrite in place if the key
exists, else append. -/
def dictInsert (m : List (String × MetaValue)) (k : String) (v : MetaValue) :
    List (String × MetaValue) :=
  if m.any (fun kv => kv.1 = k) then
    m.map (fun kv => if kv.1 = k then (k, v) else kv)
  else m ++ [(k, v)]

/-- `pathlib.Path(p).stem`: final component without its last suffix. -/
def stem (path : String) : String :=
  let name := (path.data.reverse.takeWhile (fun c => c ≠ '/')).reverse
  let base :=
    if (name.drop 1).contains '.' then
      (name.reverse.dropWhile (fun c => c ≠ '.')).drop 1 |>.reverse
    else name
  String.mk base

/-- `OutputStage.execute`: precondition `anonymized_text` present; derive
the real id from the file name stem, obtain its pseudonym (consuming the
next oracle token if a creation is needed), set `metadata["patient_id"]`,
then generate `<pseudonym>.pdf` (which may raise after the pseudonym and
metadata were already recorded). -/
def OutputStage.execute (gen : List Char → String → Except String Unit)
    (outDir : String) (ctx : PipelineContext) (w : World) :
    PipelineContext × World :=
  match ctx.anonymized_text with
  | none => (add_error ctx "Output" "No anonymized text", w)
  | some t =>
    let real_id := stem ctx.pdf_path
    let (anon_id, svc1) := get_or_create_uuid (w.freshes w.tick) w.svc real_id
    let w1 : World := { w with svc := svc1, tick := w.tick + 1 }
    let ctx1 := { ctx with metadata := dictInsert ctx.metadata "patient_id" (.str anon_id.data) }
    let output_path := outDir ++ "/" ++ anon_id ++ ".pdf"
    match gen t output_path with
    | .ok _ =>
      ({ ctx1 with anonymized_pdf_path := some output_path },
       { w1 with pdfs := w1.pdfs ++ [(output_path, t)] })
    | .error e => (add_error ctx1 "Output" e, w1)

/-! ## Orchestrator — `src/pipeline/orchestrator.py` -/

/-- `ETLPipeline.run_single`: build a fresh context for the path and thread
it through every stage in order, regardless of recorded errors. -/
def run_single (stages : List Stage) (pdf_path : String) (w : World) :
    PipelineContext × World :=
  stages.foldl (fun cw st => st cw.1 cw.2) ({ pdf_path := pdf_path }, w)

/-- One iteration of `run_batch`'s loop: run the next document and append
its context to the collected results. -/
def run_batch_step (stages : List Stage) (acc : List PipelineContext × World)
    (p : String) : List PipelineContext × World :=
  (acc.1 ++ [(run_single stages p acc.2).1], (run_single stages p acc.2).2)

/-- `ETLPipeline.run_batch`: run every path sequentially, collect all
contexts, gather the metadata of the error-free ones (the loop's
incremental `metadata_list` equals filtering the collected results),
and call the JSON serializer only when that list is non-empty
(`if metadata_list:`).  The serializer calls performed are returned as an
event list. -/
def run_batch (stages : List Stage) (paths : List String)
    (json_output_path : String) (w : World) :
    List PipelineContext × World × List (List (List (String × MetaValue)) × String) :=
  let rw := paths.foldl (run_batch_step stages) ([], w)
  let metadata_list := (rw.1.filter (fun c => !has_errors c)).map (·.metadata)
  (rw.1, rw.2,
   if metadata_list.isEmpty then [] else [(metadata_list, json_output_path)])

/-- The stage list of `scripts/benchmark.py::build_pipeline`: OCR and PDF
generation remain injected collaborators; redaction, validation and
extraction are the concrete default subsystems over one shared registry. -/
def canonicalStages (engine : String → Except String (List Char))
    (gen : List Char → String → Except String Unit) (outDir : String) :
    List Stage :=
  [fun ctx w => (OCRStage.execute engine ctx, w),
   fun ctx w =>
     (AnonymizationStage.execute (fun t => .ok (redact defaultPatterns t))
       (validate defaultPatterns) ctx, w),
   fun ctx w =>
     (ExtractionStage.execute (fun t => .ok (extract_all defaultExtractors t)) ctx, w),
   OutputStage.execute gen outDir]

/-- The redaction-completeness text of the spec's §8 test catalogue. -/
def c5_text : List Char :=
  "Patient Name: Jane Doe\nPatient ID: PAT-12345\nHospital Name: City General Hospital\nClinician: Dr. Smith\nAge: 33\nBMI: 28.5".data

/-- An initial world: empty identifier map with no map file, no PDFs
written, oracle that draws the token `"u0"`. -/
def w0 : World := ⟨⟨[], none⟩, [], fun _ => "u0", 0⟩

/-- A stage list the pipeline accepts (`ETLPipeline(stages, serializer)`
takes any stage iterable, and `AnonymizationStage(redactor, validator)` any
redactor/validator pair): the OCR engine succeeds, the `PIIRedactor` is
built over an empty registry while the `RedactionValidator` audits the
default registry, extraction and output are the canonical collaborators. -/
def mismatched_stages : List Stage :=
  [fun ctx w => (OCRStage.execute
      (fun _ => .ok "Patient Name: Jane Doe\nAge: 33".data) ctx, w),
   fun ctx w => (AnonymizationStage.execute (fun t => .ok (redact [] t))
      (validate defaultPatterns) ctx, w),
   fun ctx w => (ExtractionStage.execute
      (fun t => .ok (extract_all defaultExtractors t)) ctx, w),
   OutputStage.execute (fun _ _ => .ok ()) "out"]

/-- The run of `mismatched_stages` on one document. -/
def c2_run : PipelineContext × World := run_single mismatched_stages "report1.pdf" w0

/-! # Theorems -/

/-! ## Identifier mapping service: helper lemmas -/

theorem findVal_append_self {β : Type} (m : List (String × β)) (r : String) (f : β)
    (h : findVal r m = none) : findVal r (m ++ [(r, f)]) = some f := by
  induction m with
  | nil => simp [findVal]
  | cons kv m ih =>
    obtain ⟨k, v⟩ := kv
    by_cases hk : k = r
    · simp [findVal, hk] at h
    · simp only [List.cons_append, findVal, hk, if_false] at h ⊢
      exact ih h

/-- In-memory hit: no state change, no I/O. -/
theorem get_or_create_hit (fresh : String) (st : MapState) (id p : String)
    (h : findVal id st.mapping = some p) :
    get_or_create_uuid fresh st id = (p, st) := by
  unfold get_or_create_uuid
  simp only [h]

/-- Miss in memory, hit after reloading the file under the lock. -/
theorem get_or_create_reload_hit (fresh : String) (st : MapState) (id p : String)
    (h1 : findVal id st.mapping = none)
    (h2 : findVal id (loadMap st).mapping = some p) :
    get_or_create_uuid fresh st id = (p, loadMap st) := by
  unfold get_or_create_uuid
  simp only [h1, h2]

/-- Miss everywhere: create, persist the full map, return the fresh token. -/
theorem get_or_create_miss (fresh : String) (st : MapState) (id : String)
    (h1 : findVal id st.mapping = none)
    (h2 : findVal id (loadMap st).mapping = none) :
    get_or_create_uuid fresh st id
      = (fresh, ⟨(loadMap st).mapping ++ [(id, fresh)],
                 some ((loadMap st).mapping ++ [(id, fresh)])⟩) := by
  unfold get_or_create_uuid
  simp only [h1, h2, create_uuid, saveMap]

theorem initService_some (d : List (String × String)) :
    initService (some d) = ⟨d, some d⟩ := rfl

theorem get_or_create_mem (fresh : String) (st : MapState) (id : String) :
    findVal id (get_or_create_uuid fresh st id).2.mapping
      = some (get_or_create_uuid fresh st id).1 := by
  cases h1 : findVal id st.mapping with
  | some p => rw [get_or_create_hit fresh st id p h1]; exact h1
  | none =>
    cases h2 : findVal id (loadMap st).mapping with
    | some p => rw [get_or_create_reload_hit fresh st id p h1 h2]; exact h2
    | none =>
      rw [get_or_create_miss fresh st id h1 h2]
      exact findVal_append_self _ _ _ h2

theorem consistent_initService (d : Option (List (String × String))) :
    ConsistentMap (initService d) := by
  cases d with
  | none => intro i p h; simp [initService, loadMap, findVal] at h
  | some m => intro i p h; exact ⟨m, rfl, h⟩

theorem consistent_loadMap (st : MapState) (h : ConsistentMap st) :
    ConsistentMap (loadMap st) := by
  cases hd : st.disk with
  | none =>
    have he : loadMap st = st := by simp [loadMap, hd]
    rw [he]; exact h
  | some m =>
    have he : loadMap st = ⟨m, st.disk⟩ := by simp [loadMap, hd]
    rw [he]
    intro i p hp
    exact ⟨m, hd, hp⟩

theorem consistent_step (fresh id : String) (st : MapState) (h : ConsistentMap st) :
    ConsistentMap (get_or_create_uuid fresh st id).2 := by
  cases h1 : findVal id st.mapping with
  | some p => rw [get_or_create_hit fresh st id p h1]; exact h
  | none =>
    cases h2 : findVal id (loadMap st).mapping with
    | some p =>
      rw [get_or_create_reload_hit fresh st id p h1 h2]
      exact consistent_loadMap st h
    | none =>
      rw [get_or_create_miss fresh st id h1 h2]
      intro i p hp
      exact ⟨_, rfl, hp⟩

theorem reachable_consistent (st : MapState) (h : ReachableMap st) :
    ConsistentMap st := by
  induction h with
  | init d => exact consistent_initService d
  | step fresh id h ih => exact consistent_step fresh id _ ih

/-- C1: for every real identifier `r` and every reachable service state,
`get_or_create_uuid r` called twice returns the same pseudonym — both on
the same instance, and on a second instance constructed over the same map
file after the first call returned. -/
theorem uuid_service_idempotent (st : MapState) (h : ReachableMap st)
    (r f1 f2 f3 : String) :
    (get_or_create_uuid f2 (get_or_create_uuid f1 st r).2 r).1
        = (get_or_create_uuid f1 st r).1
  ∧ (get_or_create_uuid f3 (initService (get_or_create_uuid f1 st r).2.disk) r).1
        = (get_or_create_uuid f1 st r).1 := by
  have hm := get_or_create_mem f1 st r
  constructor
  · rw [get_or_create_hit f2 _ r _ hm]
  · have hc : ConsistentMap (get_or_create_uuid f1 st r).2 :=
      consistent_step f1 r st (reachable_consistent st h)
    obtain ⟨d, hd, hfd⟩ := hc r _ hm
    rw [hd, initService_some,
        get_or_create_hit f3 ⟨d, some d⟩ r _ (by exact hfd)]

/-- Witness for C1 at a concrete reachable state. -/
theorem uuid_service_idempotent_witness :
    (get_or_create_uuid "u2"
        (get_or_create_uuid "u1" (initService (some [("a", "p")])) "a").2 "a").1
      = (get_or_create_uuid "u1" (initService (some [("a", "p")])) "a").1
  ∧ (get_or_create_uuid "u3"
        (initService (get_or_create_uuid "u1" (initService (some [("a", "p")])) "a").2.disk) "a").1
      = (get_or_create_uuid "u1" (initService (some [("a", "p")])) "a").1 :=
  uuid_service_idempotent (initService (some [("a", "p")]))
    (ReachableMap.init (some [("a", "p")])) "a" "u1" "u2" "u3"

/-- C4: for an identifier unknown to the map (neither in memory nor in the
map file), when `get_or_create_uuid` returns, the full mapping including
`r` is already on disk, and a fresh service instance loading that file
returns the same pseudonym. -/
theorem uuid_service_durable (st : MapState) (r fresh f2 : String)
    (hmem : findVal r st.mapping = none)
    (hdisk : findVal r (loadMap st).mapping = none) :
    (get_or_create_uuid fresh st r).1 = fresh
  ∧ (get_or_create_uuid fresh st r).2.disk
        = some ((loadMap st).mapping ++ [(r, fresh)])
  ∧ (get_or_create_uuid f2
        (initService (get_or_create_uuid fresh st r).2.disk) r).1 = fresh := by
  have hstep := get_or_create_miss fresh st r hmem hdisk
  refine ⟨by rw [hstep], by rw [hstep], ?_⟩
  rw [hstep, initService_some,
      get_or_create_hit f2 _ r fresh (findVal_append_self _ _ _ hdisk)]

/-- Witness for C4 at a concrete state with an empty map file. -/
theorem uuid_service_durable_witness :
    (get_or_create_uuid "u1" (initService none) "r").1 = "u1"
  ∧ (get_or_create_uuid "u1" (initService none) "r").2.disk
        = some ((loadMap (initService none)).mapping ++ [("r", "u1")])
  ∧ (get_or_create_uuid "u9"
        (initService (get_or_create_uuid "u1" (initService none) "r").2.disk) "r").1 = "u1" :=
  uuid_service_durable (initService none) "r" "u1" "u9" (by rfl) (by rfl)

/-! ## Stage boundary behaviour -/

/-- C8: every stage returns a context and never lets a failure escape its
boundary: a collaborator failure is recorded by appending
`"<stageName>: <message>"`, and an absent precondition field
(Anonymization: `extracted_text`; Extraction, Output: `anonymized_text`)
is reported the same way instead of crashing. -/
theorem stage_error_containment :
    (∀ (engine : String → Except String (List Char)) (ctx : PipelineContext) (e : String),
        engine ctx.pdf_path = .error e →
        OCRStage.execute engine ctx = add_error ctx "OCR" e)
  ∧ (∀ (redactF : List Char → Except String (List Char))
        (validateF : List Char → Bool) (ctx : PipelineContext),
        ctx.extracted_text = none →
        AnonymizationStage.execute redactF validateF ctx
          = add_error ctx "Anonymization" "No extracted text")
  ∧ (∀ (redactF : List Char → Except String (List Char))
        (validateF : List Char → Bool) (ctx : PipelineContext) (t : List Char) (e : String),
        ctx.extracted_text = some t → redactF t = .error e →
        AnonymizationStage.execute redactF validateF ctx = add_error ctx "Anonymization" e)
  ∧ (∀ (extractAllF : List Char → Except String (List (String × MetaValue)))
        (ctx : PipelineContext),
        ctx.anonymized_text = none →
        ExtractionStage.execute extractAllF ctx
          = add_error ctx "Extraction" "No anonymized text")
  ∧ (∀ (extractAllF : List Char → Except String (List (String × MetaValue)))
        (ctx : PipelineContext) (t : List Char) (e : String),
        ctx.anonymized_text = some t → extractAllF t = .error e →
        ExtractionStage.execute extractAllF ctx = add_error ctx "Extraction" e)
  ∧ (∀ (gen : List Char → String → Except String Unit) (outDir : String)
        (ctx : PipelineContext) (w : World),
        ctx.anonymized_text = none →
        OutputStage.execute gen outDir ctx w
          = (add_error ctx "Output" "No anonymized text", w))
  ∧ (∀ (gen : List Char → String → Except String Unit) (outDir : String)
        (ctx : PipelineContext) (w : World) (t : List Char) (e : String),
        ctx.anonymized_text = some t →
        gen t (outDir ++ "/"
            ++ (get_or_create_uuid (w.freshes w.tick) w.svc (stem ctx.pdf_path)).1
            ++ ".pdf") = .error e →
        (OutputStage.execute gen outDir ctx w).1
          = add_error
              { ctx with metadata := (dictInsert ctx.metadata "patient_id"
                  (MetaValue.str (get_or_create_uuid (w.freshes w.tick) w.svc
                          (stem ctx.pdf_path)).1.data)) }
              "Output" e) := by
  refine ⟨?_, ?_, ?_, ?_, ?_, ?_, ?_⟩
  · intro engine ctx e h
    simp [OCRStage.execute, h]
  · intro redactF validateF ctx h
    simp [AnonymizationStage.execute, h]
  · intro redactF validateF ctx t e hctx hr
    simp [AnonymizationStage.execute, hctx, hr]
  · intro extractAllF ctx h
    simp [ExtractionStage.execute, h]
  · intro extractAllF ctx t e hctx hx
    simp [ExtractionStage.execute, hctx, hx]
  · intro gen outDir ctx w h
    simp [OutputStage.execute, h]
  · intro gen outDir ctx w t e hctx hgen
    rcases hg : get_or_create_uuid (w.freshes w.tick) w.svc (stem ctx.pdf_path)
      with ⟨anon, svc1⟩
    rw [hg] at hgen
    simp [OutputStage.execute, hctx, hg, hgen]

/-- Witness for C8: each conjunct exercised at a concrete context. -/
theorem stage_error_containment_witness :
    OCRStage.execute (fun _ => .error "boom") { pdf_path := "a.pdf" }
      = add_error { pdf_path := "a.pdf" } "OCR" "boom"
  ∧ AnonymizationStage.execute (fun t => .ok t) (fun _ => true) { pdf_path := "a.pdf" }
      = add_error { pdf_path := "a.pdf" } "Anonymization" "No extracted text"
  ∧ AnonymizationStage.execute (fun _ => .error "rx") (fun _ => true)
        { pdf_path := "a.pdf", extracted_text := some "t".data }
      = add_error { pdf_path := "a.pdf", extracted_text := some "t".data }
          "Anonymization" "rx"
  ∧ ExtractionStage.execute (fun _ => .ok []) { pdf_path := "a.pdf" }
      = add_error { pdf_path := "a.pdf" } "Extraction" "No anonymized text"
  ∧ ExtractionStage.execute (fun _ => .error "ex")
        { pdf_path := "a.pdf", anonymized_text := some "t".data }
      = add_error { pdf_path := "a.pdf", anonymized_text := some "t".data }
          "Extraction" "ex"
  ∧ OutputStage.execute (fun _ _ => .ok ()) "out" { pdf_path := "a.pdf" }
        ⟨⟨[], none⟩, [], fun _ => "u0", 0⟩
      = (add_error { pdf_path := "a.pdf" } "Output" "No anonymized text",
         ⟨⟨[], none⟩, [], fun _ => "u0", 0⟩)
  ∧ (OutputStage.execute (fun _ _ => .error "gx") "out"
        { pdf_path := "a.pdf", anonymized_text := some "t".data }
        ⟨⟨[], none⟩, [], fun _ => "u0", 0⟩).1
      = add_error
          { pdf_path := "a.pdf", anonymized_text := some "t".data,
            metadata := (dictInsert [] "patient_id"
              (MetaValue.str (get_or_create_uuid "u0" ⟨[], none⟩ (stem "a.pdf")).1.data)) }
          "Output" "gx" :=
  ⟨stage_error_containment.1 _ _ _ rfl,
   stage_error_containment.2.1 _ _ _ rfl,
   stage_error_containment.2.2.1 _ _ _ _ _ rfl rfl,
   stage_error_containment.2.2.2.1 _ _ rfl,
   stage_error_containment.2.2.2.2.1 _ _ _ _ rfl rfl,
   stage_error_containment.2.2.2.2.2.1 _ _ _ _ rfl,
   stage_error_containment.2.2.2.2.2.2 _ _ _ _ _ _ rfl rfl⟩

/-- C10: every stage preserves the context's `pdf_path` and only ever
appends to its error list — existing entries are never removed, modified
or reordered. -/
theorem stage_frame_preservation :
    (∀ (engine : String → Except String (List Char)) (ctx : PipelineContext),
        (OCRStage.execute engine ctx).pdf_path = ctx.pdf_path
      ∧ ∃ t, (OCRStage.execute engine ctx).errors = ctx.errors ++ t)
  ∧ (∀ (redactF : List Char → Except String (List Char))
        (validateF : List Char → Bool) (ctx : PipelineContext),
        (AnonymizationStage.execute redactF validateF ctx).pdf_path = ctx.pdf_path
      ∧ ∃ t, (AnonymizationStage.execute redactF validateF ctx).errors = ctx.errors ++ t)
  ∧ (∀ (extractAllF : List Char → Except String (List (String × MetaValue)))
        (ctx : PipelineContext),
        (ExtractionStage.execute extractAllF ctx).pdf_path = ctx.pdf_path
      ∧ ∃ t, (ExtractionStage.execute extractAllF ctx).errors = ctx.errors ++ t)
  ∧ (∀ (gen : List Char → String → Except String Unit) (outDir : String)
        (ctx : PipelineContext) (w : World),
        (OutputStage.execute gen outDir ctx w).1.pdf_path = ctx.pdf_path
      ∧ ∃ t, (OutputStage.execute gen outDir ctx w).1.errors = ctx.errors ++ t) := by
  refine ⟨?_, ?_, ?_, ?_⟩
  · intro engine ctx
    cases h : engine ctx.pdf_path with
    | ok t => exact ⟨by simp [OCRStage.execute, h], [], by simp [OCRStage.execute, h]⟩
    | error e => exact ⟨by simp [OCRStage.execute, h, add_error], ["OCR: " ++ e],
        by simp [OCRStage.execute, h, add_error]⟩
  · intro redactF validateF ctx
    cases hctx : ctx.extracted_text with
    | none => exact ⟨by simp [AnonymizationStage.execute, hctx, add_error],
        ["Anonymization: No extracted text"],
        by simp [AnonymizationStage.execute, hctx, add_error]⟩
    | some t =>
      cases hr : redactF t with
      | error e => exact ⟨by simp [AnonymizationStage.execute, hctx, hr, add_error],
          ["Anonymization: " ++ e],
          by simp [AnonymizationStage.execute, hctx, hr, add_error]⟩
      | ok r =>
        by_cases hv : validateF r = true
        · exact ⟨by simp [AnonymizationStage.execute, hctx, hr, hv], [],
            by simp [AnonymizationStage.execute, hctx, hr, hv]⟩
        · exact ⟨by simp [AnonymizationStage.execute, hctx, hr, hv, add_error],
            ["Anonymization: Redaction validation failed"],
            by simp [AnonymizationStage.execute, hctx, hr, hv, add_error]⟩
  · intro extractAllF ctx
    cases hctx : ctx.anonymized_text with
    | none => exact ⟨by simp [ExtractionStage.execute, hctx, add_error],
        ["Extraction: No anonymized text"],
        by simp [ExtractionStage.execute, hctx, add_error]⟩
    | some t =>
      cases hx : extractAllF t with
      | ok m => exact ⟨by simp [ExtractionStage.execute, hctx, hx], [],
          by simp [ExtractionStage.execute, hctx, hx]⟩
      | error e => exact ⟨by simp [ExtractionStage.execute, hctx, hx, add_error],
          ["Extraction: " ++ e],
          by simp [ExtractionStage.execute, hctx, hx, add_error]⟩
  · intro gen outDir ctx w
    cases hctx : ctx.anonymized_text with
    | none => exact ⟨by simp [OutputStage.execute, hctx, add_error],
        ["Output: No anonymized text"],
        by simp [OutputStage.execute, hctx, add_error]⟩
    | some t =>
      rcases hg : get_or_create_uuid (w.freshes w.tick) w.svc (stem ctx.pdf_path)
        with ⟨anon, svc1⟩
      cases hgen : gen t (outDir ++ "/" ++ anon ++ ".pdf") with
      | ok u => exact ⟨by simp [OutputStage.execute, hctx, hg, hgen], [],
          by simp [OutputStage.execute, hctx, hg, hgen]⟩
      | error e => exact ⟨by simp [OutputStage.execute, hctx, hg, hgen, add_error],
          ["Output: " ++ e],
          by simp [OutputStage.execute, hctx, hg, hgen, add_error]⟩

/-! ## Error propagation through the stage sequence -/

/-- C2 counterexample: in a pipeline run the code permits, the
Anonymization stage records `"Anonymization: Redaction validation failed"`
with `anonymized_text` already set, and the Extraction and Output stages
still do their work on that context — extraction fills the metadata,
a pseudonym is created in the identifier map, and a PDF is generated —
so a recorded error does not make subsequent stages short-circuit. -/
theorem error_short_circuit_counterexample :
    c2_run.1.errors = ["Anonymization: Redaction validation failed"]
  ∧ findVal "age" c2_run.1.metadata = some (.int 33)
  ∧ findVal "patient_id" c2_run.1.metadata = some (.str "u0".data)
  ∧ c2_run.1.anonymized_pdf_path = some "out/u0.pdf"
  ∧ c2_run.2.pdfs.length = 1
  ∧ findVal "report1" c2_run.2.svc.mapping = some "u0" := by
  decide

/-- C2 amended: stages gate on their precondition fields, not on the error
list; in the canonical pipeline an OCR failure leaves `extracted_text`
unset, so every later stage skips its work (appending only its own
precondition error) and the outside world — identifier map, written
PDFs — is untouched, while the run itself completes. -/
theorem precondition_short_circuit
    (engine : String → Except String (List Char))
    (gen : List Char → String → Except String Unit)
    (outDir path : String) (w : World) (e : String)
    (h : engine path = .error e) :
    (run_single (canonicalStages engine gen outDir) path w).1
      = { pdf_path := path,
          errors := ["OCR: " ++ e, "Anonymization: No extracted text",
                     "Extraction: No anonymized text",
                     "Output: No anonymized text"] }
  ∧ (run_single (canonicalStages engine gen outDir) path w).2 = w := by
  constructor <;>
    simp [run_single, canonicalStages, OCRStage.execute, h,
          AnonymizationStage.execute, ExtractionStage.execute,
          OutputStage.execute, add_error]

/-- Witness for the amended C2 at a concrete failing engine. -/
theorem precondition_short_circuit_witness :
    (run_single (canonicalStages (fun _ => .error "ocr fail") (fun _ _ => .ok ()) "out")
        "a.pdf" w0).1
      = { pdf_path := "a.pdf",
          errors := ["OCR: ocr fail", "Anonymization: No extracted text",
                     "Extraction: No anonymized text",
                     "Output: No anonymized text"] }
  ∧ (run_single (canonicalStages (fun _ => .error "ocr fail") (fun _ _ => .ok ()) "out")
        "a.pdf" w0).2 = w0 :=
  precondition_short_circuit (fun _ => .error "ocr fail") (fun _ _ => .ok ())
    "out" "a.pdf" w0 "ocr fail" rfl

/-! ## Batch aggregation and serialization -/

theorem run_batch_fold_length (stages : List Stage) (paths : List String) :
    ∀ acc : List PipelineContext × World,
      (paths.foldl (run_batch_step stages) acc).1.length
        = acc.1.length + paths.length := by
  induction paths with
  | nil => intro acc; simp
  | cons p ps ih =>
    intro acc
    rw [List.foldl_cons, ih]
    simp [run_batch_step]
    omega

/-- C3 counterexample: with an empty input list — and likewise when every
context carries an error — `run_batch` performs no serializer call at all
(the code guards the call with `if metadata_list:`), not one call
producing an empty result set. -/
theorem run_batch_skips_empty_serialization :
    (run_batch (canonicalStages (fun _ => .error "no ocr") (fun _ _ => .ok ()) "out")
        [] "meta.json" w0).2.2 = []
  ∧ (run_batch (canonicalStages (fun _ => .error "no ocr") (fun _ _ => .ok ()) "out")
        ["a.pdf", "b.pdf"] "meta.json" w0).2.2 = []
  ∧ (run_batch (canonicalStages (fun _ => .error "no ocr") (fun _ _ => .ok ()) "out")
        ["a.pdf", "b.pdf"] "meta.json" w0).1.length = 2 := by
  decide

/-- C3 amended: `run_batch` returns exactly one context per input path and
invokes the JSON serializer exactly once with the metadata of exactly the
error-free contexts when at least one context is error-free; when no
context is error-free (including an empty input list) the serializer is
not called at all. -/
theorem run_batch_serialization (stages : List Stage) (paths : List String)
    (jp : String) (w : World) :
    (run_batch stages paths jp w).1.length = paths.length
  ∧ ((∀ c ∈ (run_batch stages paths jp w).1, has_errors c = true) →
      (run_batch stages paths jp w).2.2 = [])
  ∧ ((∃ c ∈ (run_batch stages paths jp w).1, has_errors c = false) →
      (run_batch stages paths jp w).2.2
        = [(((run_batch stages paths jp w).1.filter (fun c => !has_errors c)).map
              (fun c => c.metadata), jp)]) := by
  refine ⟨?_, ?_, ?_⟩
  · simpa [run_batch] using run_batch_fold_length stages paths ([], w)
  · intro hall
    simp only [run_batch] at hall ⊢
    have hf : (paths.foldl (run_batch_step stages) ([], w)).1.filter
        (fun c => !has_errors c) = [] :=
      List.filter_eq_nil_iff.mpr (fun c hc => by simp [hall c hc])
    simp [hf]
  · rintro ⟨c, hc, hce⟩
    simp only [run_batch] at hc ⊢
    have hne : (paths.foldl (run_batch_step stages) ([], w)).1.filter
        (fun c => !has_errors c) ≠ [] := by
      intro hnil
      have : c ∈ (paths.foldl (run_batch_step stages) ([], w)).1.filter
          (fun c => !has_errors c) := by
        simp [List.mem_filter, hc, hce]
      rw [hnil] at this
      exact absurd this (List.not_mem_nil c)
    simp [List.isEmpty_iff, hne]

/-- Witness for the amended C3: a one-document error-free batch serializes
exactly once. -/
theorem run_batch_serialization_witness :
    (run_batch (canonicalStages (fun _ => .ok "Age: 33".data) (fun _ _ => .ok ()) "out")
        ["a.pdf"] "m.json" w0).2.2
      = [(((run_batch (canonicalStages (fun _ => .ok "Age: 33".data) (fun _ _ => .ok ()) "out")
              ["a.pdf"] "m.json" w0).1.filter (fun c => !has_errors c)).map
            (fun c => c.metadata), "m.json")] :=
  (run_batch_serialization
      (canonicalStages (fun _ => .ok "Age: 33".data) (fun _ _ => .ok ()) "out")
      ["a.pdf"] "m.json" w0).2.2 (by decide)

/-! ## Redaction completeness -/

set_option maxRecDepth 400000 in
/-- C5: redacting the four-PII-category text with the default registry
passes the validator built over the same registry; none of the four PII
substrings survives, while `"Age: 33"` and `"BMI: 28.5"` remain. -/
theorem redaction_completeness :
    validate defaultPatterns (redact defaultPatterns c5_text) = true
  ∧ containsSub "Jane Doe".data (redact defaultPatterns c5_text) = false
  ∧ containsSub "PAT-12345".data (redact defaultPatterns c5_text) = false
  ∧ containsSub "City General Hospital".data (redact defaultPatterns c5_text) = false
  ∧ containsSub "Dr. Smith".data (redact defaultPatterns c5_text) = false
  ∧ containsSub "Age: 33".data (redact defaultPatterns c5_text) = true
  ∧ containsSub "BMI: 28.5".data (redact defaultPatterns c5_text) = true := by
  decide

/-! ## Scanning helper lemmas -/

theorem munch_cons_pos (p : Char → Bool) (c : Char) (cs : List Char) (h : p c = true) :
    munch p (c :: cs) = (c :: (munch p cs).1, (munch p cs).2) := by
  rcases hm : munch p cs with ⟨a, b⟩
  simp [munch, h, hm]

theorem munch_cons_neg (p : Char → Bool) (c : Char) (cs : List Char) (h : p c = false) :
    munch p (c :: cs) = ([], c :: cs) := by
  simp [munch, h]

/-- Maximal munch over a run followed by a non-member: consumes exactly the
run. -/
theorem munch_all_prefix (p : Char → Bool) (w : List Char) (y : Char) (ys : List Char)
    (hw : ∀ c ∈ w, p c = true) (hy : p y = false) :
    munch p (w ++ y :: ys) = (w, y :: ys) := by
  induction w with
  | nil => simpa using munch_cons_neg p y ys hy
  | cons c w ih =>
    have hc : p c = true := hw c (List.mem_cons_self c w)
    have ih' := ih (fun d hd => hw d (List.mem_cons_of_mem c hd))
    rw [List.cons_append, munch_cons_pos p c _ hc, ih']

theorem ciLit_append (L : List Char) :
    ∀ (a b x : List Char), ciLit L a = some x → ciLit L (a ++ b) = some (x ++ b) := by
  induction L with
  | nil => intro a b x h; simp [ciLit] at h ⊢; simp [h]
  | cons l ls ih =>
    intro a b x h
    cases a with
    | nil => simp [ciLit] at h
    | cons c cs =>
      by_cases hc : lowerAscii c = lowerAscii l
      · simp only [ciLit, hc, if_true] at h
        simpa [ciLit, hc] using ih cs b x h
      · simp [ciLit, hc] at h

theorem searchFirst_cons {α : Type} (m : List Char → Option α) (c : Char) (cs : List Char) :
    searchFirst m (c :: cs) = (m (c :: cs)).orElse (fun _ => searchFirst m cs) := rfl

theorem option_some_bind {α β : Type} (a : α) (f : α → Option β) :
    (some a).bind f = f a := rfl

theorem option_some_map {α β : Type} (a : α) (f : α → β) :
    (some a).map f = some (f a) := rfl

theorem isSpacePy_false_of_digit (c : Char) (h : isDigitAscii c = true) :
    isSpacePy c = false := by
  cases hs : isSpacePy c with
  | false => rfl
  | true =>
    exfalso
    simp only [isSpacePy, Bool.or_eq_true, decide_eq_true_eq] at hs
    rcases hs with ((((h1 | h1) | h1) | h1) | h1) | h1 <;> subst h1 <;>
      exact absurd h (by decide)

/-! ## Metadata inclusion -/

theorem findVal_extract_all (es : List BaseExtractor)
    (hnd : (es.map (fun e => e.field_name)).Nodup) (t : List Char)
    (k : String) (v : MetaValue) :
    findVal k (extract_all es t) = some v ↔
      ∃ e ∈ es, e.field_name = k ∧ e.extract t = some v ∧ e.validate v = true := by
  induction es with
  | nil => simp [extract_all, findVal]
  | cons e es ih =>
    rw [List.map_cons, List.nodup_cons] at hnd
    obtain ⟨hknotin, hnd'⟩ := hnd
    have ihr := ih hnd'
    cases hx : e.extract t with
    | none =>
      simp only [extract_all, hx]
      rw [ihr]
      constructor
      · rintro ⟨f, hf, hrest⟩; exact ⟨f, List.mem_cons_of_mem e hf, hrest⟩
      · rintro ⟨f, hf, hfk, hfe, hfv⟩
        rcases List.mem_cons.mp hf with rfl | hf'
        · rw [hx] at hfe; exact absurd hfe (by simp)
        · exact ⟨f, hf', hfk, hfe, hfv⟩
    | some v0 =>
      cases hv0 : e.validate v0 with
      | false =>
        simp only [extract_all, hx, hv0]
        rw [if_neg (by simp : ¬ (false = true)), ihr]
        constructor
        · rintro ⟨f, hf, hrest⟩; exact ⟨f, List.mem_cons_of_mem e hf, hrest⟩
        · rintro ⟨f, hf, hfk, hfe, hfv⟩
          rcases List.mem_cons.mp hf with rfl | hf'
          · rw [hx] at hfe
            obtain rfl : v0 = v := by simpa using hfe
            exact absurd hfv (by simp [hv0])
          · exact ⟨f, hf', hfk, hfe, hfv⟩
      | true =>
        simp only [extract_all, hx, hv0]
        rw [if_pos trivial]
        by_cases hek : e.field_name = k
        · rw [show findVal k ((e.field_name, v0) :: extract_all es t) = some v0 by
              simp [findVal, hek]]
          constructor
          · intro hv
            obtain rfl : v0 = v := by simpa using hv
            exact ⟨e, List.mem_cons_self e es, hek, hx, hv0⟩
          · rintro ⟨f, hf, hfk, hfe, hfv⟩
            rcases List.mem_cons.mp hf with rfl | hf'
            · rw [hx] at hfe; simpa using hfe
            · exfalso
              exact hknotin (hfk.trans hek.symm ▸ List.mem_map_of_mem (fun e => e.field_name) hf')
        · rw [show findVal k ((e.field_name, v0) :: extract_all es t) = findVal k (extract_all es t) by
              simp [findVal, hek]]
          rw [ihr]
          constructor
          · rintro ⟨f, hf, hrest⟩; exact ⟨f, List.mem_cons_of_mem e hf, hrest⟩
          · rintro ⟨f, hf, hfk, hfe, hfv⟩
            rcases List.mem_cons.mp hf with rfl | hf'
            · exact absurd hfk hek
            · exact ⟨f, hf', hfk, hfe, hfv⟩

/-- C6: a field key appears in `extract_all`'s result exactly when that
field's `extract` matched the text and its `validate` accepted the value
(never a placeholder otherwise); in particular `"Age: 999"` is extracted
as 999 but excluded from the metadata, while `"Age: 33"` is included. -/
theorem metadata_inclusion (t : List Char) (k : String) (v : MetaValue) :
    (findVal k (extract_all defaultExtractors t) = some v ↔
      ∃ e ∈ defaultExtractors, e.field_name = k ∧ e.extract t = some v
        ∧ e.validate v = true)
  ∧ AgeExtractor.extract "Age: 999".data = some (.int 999)
  ∧ findVal "age" (extract_all defaultExtractors "Age: 999".data) = none
  ∧ findVal "age" (extract_all defaultExtractors "Age: 33".data) = some (.int 33) := by
  refine ⟨findVal_extract_all defaultExtractors (by decide) t k v,
    by decide, by decide, by decide⟩

/-! ## Findings: absent section vs empty section -/

/-- A field whose `extract` is absent never appears in the metadata. -/
theorem findings_key_none (text : List Char)
    (hx : FindingsExtractor.extract text = none) :
    findVal "findings" (extract_all defaultExtractors text) = none := by
  cases hv : findVal "findings" (extract_all defaultExtractors text) with
  | none => rfl
  | some v =>
    exfalso
    obtain ⟨e, he, hf, hex, hva⟩ :=
      (findVal_extract_all defaultExtractors (by decide) text "findings" v).mp hv
    simp only [defaultExtractors, List.mem_cons, List.not_mem_nil, or_false] at he
    rcases he with rfl | rfl | rfl | rfl
    · exact absurd hf (by decide)
    · exact absurd hf (by decide)
    · exact absurd hf (by decide)
    · rw [hx] at hex; exact absurd hex (by simp)

/-- C7: over the embedded findings regex: a text in which the
`Examination Findings … Conclusion` pattern finds no match yields no
`findings` key in the final metadata; and a text in which the pattern does
match but the captured block is empty or whitespace-only also yields no
`findings` key — absence and an empty section are indistinguishable in the
final metadata. -/
theorem findings_absence_vs_empty :
    (∀ text : List Char, searchFirst matchFindingsAt text = none →
        findVal "findings" (extract_all defaultExtractors text) = none)
  ∧ (∀ text g : List Char, searchFirst matchFindingsAt text = some g →
        (∀ c ∈ g, isSpacePy c = true) →
        findVal "findings" (extract_all defaultExtractors text) = none) := by
  constructor
  · intro text hs
    apply findings_key_none
    show (searchFirst matchFindingsAt text).bind
      (fun g => let lines := findingsLines g
                if lines.isEmpty then none else some (MetaValue.strList lines)) = none
    rw [hs]
    rfl
  · intro text g hs hws
    apply findings_key_none
    have hstrip : stripPy g = [] := by
      rw [stripPy, List.dropWhile_eq_nil_iff.mpr hws]
      rfl
    have hlines : findingsLines g = [] := by
      rw [findingsLines, hstrip]
      rfl
    show (searchFirst matchFindingsAt text).bind
      (fun g => let lines := findingsLines g
                if lines.isEmpty then none else some (MetaValue.strList lines)) = none
    rw [hs, option_some_bind]
    show (if (findingsLines g).isEmpty = true then none
          else some (MetaValue.strList (findingsLines g))) = none
    rw [hlines]
    rfl

/-- Witness for C7: a text with no section, and one whose present section
captures a whitespace-only (hence empty) block. -/
theorem findings_absence_vs_empty_witness :
    findVal "findings" (extract_all defaultExtractors "Age: 33".data) = none
  ∧ findVal "findings" (extract_all defaultExtractors
        "Examination Findings \n Conclusion!".data) = none :=
  ⟨findings_absence_vs_empty.1 "Age: 33".data (by decide),
   findings_absence_vs_empty.2 "Examination Findings \n Conclusion!".data []
     (by decide) (by decide)⟩

/-- Witness for C6's inclusion equivalence at a concrete accepted value. -/
theorem metadata_inclusion_witness :
    findVal "age" (extract_all defaultExtractors "Age: 33".data)
        = some (MetaValue.int 33) ↔
      ∃ e ∈ defaultExtractors, e.field_name = "age"
        ∧ e.extract "Age: 33".data = some (MetaValue.int 33)
        ∧ e.validate (MetaValue.int 33) = true :=
  (metadata_inclusion "Age: 33".data "age" (MetaValue.int 33)).1

/-! ## Gestational age -/

/-- C9 counterexample: the gestational-age regex requires the literal day
component (`\d*\s*day[s]?`): for the label followed only by `"32 weeks"`,
`extract` is absent even though the validator would accept the duration
string, while `"32 weeks 4 days"` is extracted. -/
theorem gestational_age_weeks_only_counterexample :
    GestationalAgeExtractor.extract "GA: 32 weeks".data = none
  ∧ GestationalAgeExtractor.extract "GA: 32 weeks 4 days".data
      = some (MetaValue.str "32 weeks 4 days".data)
  ∧ GestationalAgeExtractor.validate (MetaValue.str "32 weeks".data) = true := by
  decide

/-- `stripPy` is the identity on a text that neither starts nor ends with
whitespace. -/
theorem stripPy_eq_self (g : List Char)
    (h1 : ∀ c, g.head? = some c → isSpacePy c = false)
    (h2 : ∀ c, g.getLast? = some c → isSpacePy c = false) :
    stripPy g = g := by
  have hdw : ∀ (l : List Char), (∀ c, l.head? = some c → isSpacePy c = false) →
      l.dropWhile isSpacePy = l := by
    intro l hl
    cases l with
    | nil => rfl
    | cons a l => rw [List.dropWhile_cons, if_neg (by simp [hl a rfl])]
  rw [stripPy, hdw g h1, hdw g.reverse (fun c hc => h2 c (by rwa [List.head?_reverse] at hc)),
      List.reverse_reverse]
/-- C9 amended: the gestational-age extractor matches the label followed by
`"N weeks M days"` — the `day`/`days` literal is required while the digits
`M` may be absent — returning the captured duration; the label followed
only by `"N weeks"` yields no match; `validate` accepts exactly the
non-empty strings. -/
theorem gestational_age_extraction (ds es rest : List Char)
    (hds : ds ≠ []) (hd : ∀ c ∈ ds, isDigitAscii c = true)
    (he : ∀ c ∈ es, isDigitAscii c = true) :
    (GestationalAgeExtractor.extract
        ("GA: ".data ++ ds ++ " weeks ".data ++ es ++ " days".data ++ rest)
      = some (MetaValue.str (ds ++ " weeks ".data ++ es ++ " days".data)))
  ∧ GestationalAgeExtractor.extract "GA: 40 weeks".data = none
  ∧ (∀ v, GestationalAgeExtractor.validate v = true ↔
        ∃ s, v = MetaValue.str s ∧ s ≠ []) := by
  obtain ⟨d, ds', rfl⟩ : ∃ d ds', ds = d :: ds' := by
    cases ds with
    | nil => exact absurd rfl hds
    | cons d ds' => exact ⟨d, ds', rfl⟩
  have hdd : isDigitAscii d = true := hd d (List.mem_cons_self d ds')
  refine ⟨?_, by decide, ?_⟩
  · have hassoc : "GA: ".data ++ (d :: ds') ++ " weeks ".data ++ es ++ " days".data ++ rest
        = "GA: ".data ++ ((d :: ds')
            ++ (" weeks ".data ++ (es ++ (" days".data ++ rest)))) := by
      simp [List.append_assoc]
    rw [hassoc]
    set W : List Char := " weeks ".data ++ (es ++ (" days".data ++ rest)) with hW
    -- phase 1: the case-insensitive label
    have hci : ciLit "ga".data ("GA: ".data ++ ((d :: ds') ++ W))
        = some (':' :: ' ' :: ((d :: ds') ++ W)) :=
      ciLit_append "ga".data "GA".data (':' :: ' ' :: ((d :: ds') ++ W)) [] (by decide)
    -- phase 2: separator, whitespace, digits
    have hmun1 : munch isSpacePy (' ' :: ((d :: ds') ++ W))
        = ([' '], (d :: ds') ++ W) :=
      munch_all_prefix isSpacePy [' '] d (ds' ++ W) (by decide)
        (isSpacePy_false_of_digit d hdd)
    have h_a : munch isDigitAscii ((d :: ds') ++ W) = (d :: ds', W) :=
      munch_all_prefix isDigitAscii (d :: ds') ' '
        ('w' :: 'e' :: 'e' :: 'k' :: 's' :: ' '
          :: (es ++ (' ' :: 'd' :: 'a' :: 'y' :: 's' :: rest))) hd (by decide)
    have h_b : munch isSpacePy W
        = ([' '], 'w' :: 'e' :: 'e' :: 'k' :: 's' :: ' '
            :: (es ++ (' ' :: 'd' :: 'a' :: 'y' :: 's' :: rest))) :=
      munch_all_prefix isSpacePy [' '] 'w'
        ('e' :: 'e' :: 'k' :: 's' :: ' '
          :: (es ++ (' ' :: 'd' :: 'a' :: 'y' :: 's' :: rest))) (by decide) (by decide)
    have h_c : ciLit "week".data
        ('w' :: 'e' :: 'e' :: 'k' :: 's' :: ' '
          :: (es ++ (' ' :: 'd' :: 'a' :: 'y' :: 's' :: rest)))
        = some ('s' :: ' ' :: (es ++ (' ' :: 'd' :: 'a' :: 'y' :: 's' :: rest))) :=
      ciLit_append "week".data ['w', 'e', 'e', 'k']
        ('s' :: ' ' :: (es ++ (' ' :: 'd' :: 'a' :: 'y' :: 's' :: rest))) [] (by decide)
    have h_h : ciLit "day".data ('d' :: 'a' :: 'y' :: 's' :: rest) = some ('s' :: rest) :=
      ciLit_append "day".data ['d', 'a', 'y'] ('s' :: rest) [] (by decide)
    -- phase 3: the capture body
    have hgrp : gaGroupRest ((d :: ds') ++ W) = some rest := by
      show (if (munch isDigitAscii ((d :: ds') ++ W)).1.isEmpty = true then none
            else (ciLit "week".data
                (munch isSpacePy (munch isDigitAscii ((d :: ds') ++ W)).2).2).bind
              (fun s3 =>
                (ciLit "day".data
                    (munch isSpacePy
                      (munch isDigitAscii
                        (munch isSpacePy
                          (optChar (fun c => lowerAscii c = 's') s3)).2).2).2).bind
                  (fun s8 => some (optChar (fun c => lowerAscii c = 's') s8))))
          = some rest
      rw [h_a]
      show (if (d :: ds').isEmpty = true then none
            else (ciLit "week".data (munch isSpacePy W).2).bind
              (fun s3 =>
                (ciLit "day".data
                    (munch isSpacePy
                      (munch isDigitAscii
                        (munch isSpacePy
                          (optChar (fun c => lowerAscii c = 's') s3)).2).2).2).bind
                  (fun s8 => some (optChar (fun c => lowerAscii c = 's') s8))))
          = some rest
      rw [if_neg (by simp), h_b]
      show (ciLit "week".data
          ('w' :: 'e' :: 'e' :: 'k' :: 's' :: ' '
            :: (es ++ (' ' :: 'd' :: 'a' :: 'y' :: 's' :: rest)))).bind
          (fun s3 =>
            (ciLit "day".data
                (munch isSpacePy
                  (munch isDigitAscii
                    (munch isSpacePy
                      (optChar (fun c => lowerAscii c = 's') s3)).2).2).2).bind
              (fun s8 => some (optChar (fun c => lowerAscii c = 's') s8)))
        = some rest
      rw [h_c, option_some_bind]
      show (ciLit "day".data
          (munch isSpacePy
            (munch isDigitAscii
              (munch isSpacePy
                (' ' :: (es ++ (' ' :: 'd' :: 'a' :: 'y' :: 's' :: rest)))).2).2).2).bind
          (fun s8 => some (optChar (fun c => lowerAscii c = 's') s8)) = some rest
      cases es with
      | nil =>
        have h_e0 : munch isSpacePy
            (' ' :: ([] ++ (' ' :: 'd' :: 'a' :: 'y' :: 's' :: rest)))
            = ([' ', ' '], 'd' :: 'a' :: 'y' :: 's' :: rest) :=
          munch_all_prefix isSpacePy [' ', ' '] 'd' ('a' :: 'y' :: 's' :: rest)
            (by decide) (by decide)
        rw [h_e0]
        show (ciLit "day".data
            (munch isSpacePy
              (munch isDigitAscii ('d' :: 'a' :: 'y' :: 's' :: rest)).2).2).bind
            (fun s8 => some (optChar (fun c => lowerAscii c = 's') s8)) = some rest
        rw [munch_cons_neg isDigitAscii 'd' ('a' :: 'y' :: 's' :: rest) (by decide)]
        show (ciLit "day".data
            (munch isSpacePy ('d' :: 'a' :: 'y' :: 's' :: rest)).2).bind
            (fun s8 => some (optChar (fun c => lowerAscii c = 's') s8)) = some rest
        rw [munch_cons_neg isSpacePy 'd' ('a' :: 'y' :: 's' :: rest) (by decide)]
        show (ciLit "day".data ('d' :: 'a' :: 'y' :: 's' :: rest)).bind
            (fun s8 => some (optChar (fun c => lowerAscii c = 's') s8)) = some rest
        rw [h_h, option_some_bind]
        rfl
      | cons e es' =>
        have hde : isDigitAscii e = true := he e (List.mem_cons_self e es')
        have h_e1 : munch isSpacePy
            (' ' :: ((e :: es') ++ (' ' :: 'd' :: 'a' :: 'y' :: 's' :: rest)))
            = ([' '], (e :: es') ++ (' ' :: 'd' :: 'a' :: 'y' :: 's' :: rest)) :=
          munch_all_prefix isSpacePy [' '] e
            (es' ++ (' ' :: 'd' :: 'a' :: 'y' :: 's' :: rest)) (by decide)
            (isSpacePy_false_of_digit e hde)
        rw [h_e1]
        show (ciLit "day".data
            (munch isSpacePy
              (munch isDigitAscii
                ((e :: es') ++ (' ' :: 'd' :: 'a' :: 'y' :: 's' :: rest))).2).2).bind
            (fun s8 => some (optChar (fun c => lowerAscii c = 's') s8)) = some rest
        have h_f : munch isDigitAscii
            ((e :: es') ++ (' ' :: 'd' :: 'a' :: 'y' :: 's' :: rest))
            = (e :: es', ' ' :: 'd' :: 'a' :: 'y' :: 's' :: rest) :=
          munch_all_prefix isDigitAscii (e :: es') ' '
            ('d' :: 'a' :: 'y' :: 's' :: rest) he (by decide)
        rw [h_f]
        show (ciLit "day".data
            (munch isSpacePy (' ' :: 'd' :: 'a' :: 'y' :: 's' :: rest)).2).bind
            (fun s8 => some (optChar (fun c => lowerAscii c = 's') s8)) = some rest
        have h_g : munch isSpacePy (' ' :: 'd' :: 'a' :: 'y' :: 's' :: rest)
            = ([' '], 'd' :: 'a' :: 'y' :: 's' :: rest) :=
          munch_all_prefix isSpacePy [' '] 'd' ('a' :: 'y' :: 's' :: rest)
            (by decide) (by decide)
        rw [h_g]
        show (ciLit "day".data ('d' :: 'a' :: 'y' :: 's' :: rest)).bind
            (fun s8 => some (optChar (fun c => lowerAscii c = 's') s8)) = some rest
        rw [h_h, option_some_bind]
        rfl
    -- assemble matchGAAt
    have hmatch : matchGAAt ("GA: ".data ++ ((d :: ds') ++ W))
        = some (((d :: ds') ++ W).take (((d :: ds') ++ W).length - rest.length)) := by
      show (ciLit "ga".data ("GA: ".data ++ ((d :: ds') ++ W))).bind (fun s1 =>
          (gaGroupRest
              (munch isSpacePy (optChar (fun c => c = ':' || c = '-') s1)).2).map
            (fun r =>
              (munch isSpacePy (optChar (fun c => c = ':' || c = '-') s1)).2.take
                ((munch isSpacePy
                    (optChar (fun c => c = ':' || c = '-') s1)).2.length - r.length)))
        = some (((d :: ds') ++ W).take (((d :: ds') ++ W).length - rest.length))
      rw [hci, option_some_bind]
      show (gaGroupRest (munch isSpacePy (' ' :: ((d :: ds') ++ W))).2).map
          (fun r =>
            (munch isSpacePy (' ' :: ((d :: ds') ++ W))).2.take
              ((munch isSpacePy (' ' :: ((d :: ds') ++ W))).2.length - r.length))
        = some (((d :: ds') ++ W).take (((d :: ds') ++ W).length - rest.length))
      rw [hmun1]
      show (gaGroupRest ((d :: ds') ++ W)).map
          (fun r => ((d :: ds') ++ W).take (((d :: ds') ++ W).length - r.length))
        = some (((d :: ds') ++ W).take (((d :: ds') ++ W).length - rest.length))
      rw [hgrp, option_some_map]
    -- the capture is the prefix before `rest`
    have htake : ((d :: ds') ++ W).take (((d :: ds') ++ W).length - rest.length)
        = (d :: ds') ++ (" weeks ".data ++ (es ++ " days".data)) := by
      have hsplit : (d :: ds') ++ W
          = ((d :: ds') ++ (" weeks ".data ++ (es ++ " days".data))) ++ rest := by
        rw [hW]; simp [List.append_assoc]
      rw [hsplit]
      have hlen : (((d :: ds') ++ (" weeks ".data ++ (es ++ " days".data))) ++ rest).length
            - rest.length
          = ((d :: ds') ++ (" weeks ".data ++ (es ++ " days".data))).length := by
        simp
        omega
      rw [hlen, List.take_left]
    have hsearch : searchFirst matchGAAt ("GA: ".data ++ ((d :: ds') ++ W))
        = some ((d :: ds') ++ (" weeks ".data ++ (es ++ " days".data))) := by
      rw [show ("GA: ".data ++ ((d :: ds') ++ W))
            = 'G' :: ("A: ".data ++ ((d :: ds') ++ W)) from rfl, searchFirst_cons,
          show ('G' :: ("A: ".data ++ ((d :: ds') ++ W)))
            = ("GA: ".data ++ ((d :: ds') ++ W)) from rfl, hmatch, htake]
      rfl
    -- strip is a no-op: starts with a digit, ends with 's'
    have hstrip : stripPy ((d :: ds') ++ (" weeks ".data ++ (es ++ " days".data)))
        = (d :: ds') ++ (" weeks ".data ++ (es ++ " days".data)) := by
      refine stripPy_eq_self _ ?_ ?_
      · intro c hc
        have hhead : ((d :: ds') ++ (" weeks ".data ++ (es ++ " days".data))).head?
            = some d := rfl
        rw [hhead] at hc
        obtain rfl : d = c := by simpa using hc
        exact isSpacePy_false_of_digit d hdd
      · intro c hc
        have hlast : ((d :: ds') ++ (" weeks ".data ++ (es ++ " days".data))).getLast?
            = some 's' := by
          rw [show ((d :: ds') ++ (" weeks ".data ++ (es ++ " days".data)))
                = ((d :: ds') ++ (" weeks ".data ++ es)) ++ " days".data by
              simp [List.append_assoc],
              List.getLast?_append_of_ne_nil _ (by decide)]
          decide
        rw [hlast] at hc
        obtain rfl : 's' = c := by simpa using hc
        rfl
    show (searchFirst matchGAAt ("GA: ".data ++ ((d :: ds') ++ W))).map
        (fun g => MetaValue.str (stripPy g))
      = some (MetaValue.str ((d :: ds') ++ " weeks ".data ++ es ++ " days".data))
    rw [hsearch, option_some_map, hstrip]
    simp [List.append_assoc]
  · intro v
    cases v with
    | str s =>
      simp only [GestationalAgeExtractor, decide_eq_true_eq]
      constructor
      · intro hlen; exact ⟨s, rfl, by simpa using List.length_pos.mp hlen⟩
      · rintro ⟨s', hs', hne⟩
        obtain rfl : s = s' := by simpa using hs'
        exact List.length_pos.mpr hne
    | int n => simp [GestationalAgeExtractor]
    | rat q => simp [GestationalAgeExtractor]
    | strList l => simp [GestationalAgeExtractor]
/-- Witness for the amended C9 at `"GA: 32 weeks 4 days"` (and with the day
count absent, `"GA: 7 weeks  days"`). -/
theorem gestational_age_extraction_witness :
    GestationalAgeExtractor.extract
        ("GA: ".data ++ "32".data ++ " weeks ".data ++ "4".data ++ " days".data ++ "!".data)
      = some (MetaValue.str ("32".data ++ " weeks ".data ++ "4".data ++ " days".data))
  ∧ GestationalAgeExtractor.extract
        ("GA: ".data ++ "7".data ++ " weeks ".data ++ [] ++ " days".data ++ [])
      = some (MetaValue.str ("7".data ++ " weeks ".data ++ [] ++ " days".data)) :=
  ⟨(gestational_age_extraction "32".data "4".data "!".data (by decide) (by decide)
      (by decide)).1,
   (gestational_age_extraction "7".data [] [] (by decide) (by decide)
      (by decide)).1⟩

end ETL
